import Mathlib

/-!
Shallow embedding of the COS storage backend
(`backend/infra/storage/impl/cos/cos.go` and its test file) of the
coze-studio repository, together with theorems settling the frozen claims
about it.  Go functions are translated into executable Lean definitions;
the remote object-store SDK (the "collaborator") is a parameter, and the
remote calls a client operation performs are returned as an explicit trace.
-/

set_option maxRecDepth 4096

/-- Go `time.Time` as the wall-clock fields produced by the parsing layouts
used in this file, plus the zone offset in minutes.  The Go zero time is
year 1, January 1, midnight UTC. -/
structure GoTime where
  year : Int
  month : Nat
  day : Nat
  hour : Nat
  minute : Nat
  second : Nat
  nanos : Nat
  offsetMin : Int
deriving Repr, DecidableEq

/-- The Go zero `time.Time` (what `time.Time{}` denotes and `IsZero` tests). -/
def timeZero : GoTime := ⟨1, 1, 1, 0, 0, 0, 0, 0⟩

/-- Go `t.IsZero()` for the times representable here. -/
def GoTime.isZero (t : GoTime) : Bool := t = timeZero

/-- Value of a decimal digit character, `none` on non-digits. -/
def digitVal (c : Char) : Option Nat :=
  if c.isDigit then some (c.toNat - 48) else none

/-- Read exactly `n` decimal digits, most significant first, on top of `acc`. -/
def readFixedNat : Nat → Nat → List Char → Option (Nat × List Char)
  | 0, acc, cs => some (acc, cs)
  | _ + 1, _, [] => none
  | n + 1, acc, c :: cs =>
    match digitVal c with
    | some d => readFixedNat n (acc * 10 + d) cs
    | none => none

/-- Consume one expected character. -/
def expectCh (c : Char) : List Char → Option (List Char)
  | [] => none
  | x :: xs => if x = c then some xs else none

/-- Consume an expected literal string. -/
def expectStr (lit : String) (cs : List Char) : Option (List Char) :=
  if lit.data.isPrefixOf cs then some (cs.drop lit.data.length) else none

/-- Longest leading run of digit characters, paired with the rest. -/
def spanDigits (cs : List Char) : List Char × List Char :=
  (cs.takeWhile Char.isDigit, cs.dropWhile Char.isDigit)

/-- Numeric value of a digit-character list, most significant first. -/
def digitsToNat (ds : List Char) : Nat :=
  ds.foldl (fun a c => a * 10 + (c.toNat - 48)) 0

/-- Go leap-year rule. -/
def isLeapYear (y : Int) : Bool :=
  y % 4 == 0 && (y % 100 != 0 || y % 400 == 0)

/-- Days in a month, used by Go's date validation ("day out of range"). -/
def daysInMonth (y : Int) (m : Nat) : Nat :=
  if m = 2 then (if isLeapYear y then 29 else 28)
  else if m = 4 ∨ m = 6 ∨ m = 9 ∨ m = 11 then 30
  else 31

/-- Date and clock field validation performed by Go `time.Parse`. -/
def validDateTime (y : Int) (mo d h mi s : Nat) : Bool :=
  1 ≤ mo && mo ≤ 12 && 1 ≤ d && d ≤ daysInMonth y mo &&
    h ≤ 23 && mi ≤ 59 && s ≤ 59

/-- Fractional seconds: a dot followed by one to nine digits scaled to
nanoseconds; absent fraction yields zero nanoseconds.  Modelled from Go
`time.Parse`'s lenient fractional-second handling after a seconds field. -/
def parseOptFrac : List Char → Option (Nat × List Char)
  | '.' :: rest =>
    let (ds, rest') := spanDigits rest
    if ds.length = 0 ∨ 9 < ds.length then none
    else some (digitsToNat ds * 10 ^ (9 - ds.length), rest')
  | cs => some (0, cs)

/-- RFC3339 numeric zone: `Z` or `±hh:mm`, as minutes east of UTC. -/
def parseISOZone : List Char → Option (Int × List Char)
  | 'Z' :: rest => some (0, rest)
  | '+' :: rest => do
    let (hh, cs) ← readFixedNat 2 0 rest
    let cs ← expectCh ':' cs
    let (mm, cs) ← readFixedNat 2 0 cs
    if hh ≤ 23 ∧ mm ≤ 59 then some ((hh * 60 + mm : Nat), cs) else none
  | '-' :: rest => do
    let (hh, cs) ← readFixedNat 2 0 rest
    let cs ← expectCh ':' cs
    let (mm, cs) ← readFixedNat 2 0 cs
    if hh ≤ 23 ∧ mm ≤ 59 then some (-((hh * 60 + mm : Nat) : Int), cs) else none
  | _ => none

/-- Modelled from Go `time.Parse` with the `time.RFC3339` /
`time.RFC3339Nano` layouts: `YYYY-MM-DDTHH:MM:SS[.fff…]Z|±hh:mm`, entire
input consumed, fields range-checked.  Go accepts optional fractional
seconds for both layouts, so one parser serves both. -/
def parseISO8601 (s : String) : Option GoTime := do
  let cs := s.data
  let (y, cs) ← readFixedNat 4 0 cs
  let cs ← expectCh '-' cs
  let (mo, cs) ← readFixedNat 2 0 cs
  let cs ← expectCh '-' cs
  let (d, cs) ← readFixedNat 2 0 cs
  let cs ← expectCh 'T' cs
  let (h, cs) ← readFixedNat 2 0 cs
  let cs ← expectCh ':' cs
  let (mi, cs) ← readFixedNat 2 0 cs
  let cs ← expectCh ':' cs
  let (sec, cs) ← readFixedNat 2 0 cs
  let (ns, cs) ← parseOptFrac cs
  let (off, cs) ← parseISOZone cs
  if cs.isEmpty ∧ validDateTime y mo d h mi sec then
    some ⟨y, mo, d, h, mi, sec, ns, off⟩
  else none

/-- Modelled from Go `time.Parse` with the layout
`2006-01-02T15:04:05.000Z`: exactly three fractional digits and a literal
trailing `Z` (the lone `Z` in this layout is literal text, not a zone
directive). -/
def parseMilliZ (s : String) : Option GoTime := do
  let cs := s.data
  let (y, cs) ← readFixedNat 4 0 cs
  let cs ← expectCh '-' cs
  let (mo, cs) ← readFixedNat 2 0 cs
  let cs ← expectCh '-' cs
  let (d, cs) ← readFixedNat 2 0 cs
  let cs ← expectCh 'T' cs
  let (h, cs) ← readFixedNat 2 0 cs
  let cs ← expectCh ':' cs
  let (mi, cs) ← readFixedNat 2 0 cs
  let cs ← expectCh ':' cs
  let (sec, cs) ← readFixedNat 2 0 cs
  let cs ← expectCh '.' cs
  let (ms, cs) ← readFixedNat 3 0 cs
  let cs ← expectCh 'Z' cs
  if cs.isEmpty ∧ validDateTime y mo d h mi sec then
    some ⟨y, mo, d, h, mi, sec, ms * 1000000, 0⟩
  else none

def shortDayNames : List String := ["Sun", "Mon", "Tue", "Wed", "Thu", "Fri", "Sat"]

def longDayNames : List String :=
  ["Sunday", "Monday", "Tuesday", "Wednesday", "Thursday", "Friday", "Saturday"]

def shortMonthNames : List String :=
  ["Jan", "Feb", "Mar", "Apr", "May", "Jun", "Jul", "Aug", "Sep", "Oct", "Nov", "Dec"]

/-- First name in `names` that is a leading match of `cs`, with its
1-based index and the remaining input. -/
def matchOneOf : List String → Nat → List Char → Option (Nat × List Char)
  | [], _, _ => none
  | n :: rest, i, cs =>
    if n.data.isPrefixOf cs then some (i, cs.drop n.data.length)
    else matchOneOf rest (i + 1) cs

/-- Shared `HH:MM:SS` clock parse for the HTTP-date layouts. -/
def parseClock (cs : List Char) : Option (Nat × Nat × Nat × List Char) := do
  let (h, cs) ← readFixedNat 2 0 cs
  let cs ← expectCh ':' cs
  let (mi, cs) ← readFixedNat 2 0 cs
  let cs ← expectCh ':' cs
  let (sec, cs) ← readFixedNat 2 0 cs
  some (h, mi, sec, cs)

/-- Modelled from Go `time.Parse` with `http.TimeFormat`
(`Mon, 02 Jan 2006 15:04:05 GMT`).  The weekday name must be a valid short
name but Go does not cross-check it against the date. -/
def parseHTTPTimeFormat (s : String) : Option GoTime := do
  let cs := s.data
  let (_, cs) ← matchOneOf shortDayNames 1 cs
  let cs ← expectStr ", " cs
  let (d, cs) ← readFixedNat 2 0 cs
  let cs ← expectCh ' ' cs
  let (mo, cs) ← matchOneOf shortMonthNames 1 cs
  let cs ← expectCh ' ' cs
  let (y, cs) ← readFixedNat 4 0 cs
  let cs ← expectCh ' ' cs
  let (h, mi, sec, cs) ← parseClock cs
  let cs ← expectStr " GMT" cs
  if cs.isEmpty ∧ validDateTime y mo d h mi sec then
    some ⟨y, mo, d, h, mi, sec, 0, 0⟩
  else none

/-- Zone abbreviation of `time.RFC850`'s `MST` directive: a run of three to
five uppercase letters.  Modelled from Go `parseTimeZone`; Go fabricates a
zero-offset location for unknown abbreviations, so the offset is zero. -/
def parseZoneAbbrev (cs : List Char) : Option (List Char) :=
  let (zs, rest) := (cs.takeWhile Char.isUpper, cs.dropWhile Char.isUpper)
  if 3 ≤ zs.length ∧ zs.length ≤ 5 then some rest else none

/-- Modelled from Go `time.Parse` with `time.RFC850`
(`Monday, 02-Jan-06 15:04:05 MST`); two-digit years 69–99 map to 19xx,
00–68 to 20xx. -/
def parseRFC850 (s : String) : Option GoTime := do
  let cs := s.data
  let (_, cs) ← matchOneOf longDayNames 1 cs
  let cs ← expectStr ", " cs
  let (d, cs) ← readFixedNat 2 0 cs
  let cs ← expectCh '-' cs
  let (mo, cs) ← matchOneOf shortMonthNames 1 cs
  let cs ← expectCh '-' cs
  let (yy, cs) ← readFixedNat 2 0 cs
  let cs ← expectCh ' ' cs
  let (h, mi, sec, cs) ← parseClock cs
  let cs ← expectCh ' ' cs
  let cs ← parseZoneAbbrev cs
  let y : Int := if 69 ≤ yy then 1900 + yy else 2000 + yy
  if cs.isEmpty ∧ validDateTime y mo d h mi sec then
    some ⟨y, mo, d, h, mi, sec, 0, 0⟩
  else none

/-- Modelled from Go `time.Parse` with `time.ANSIC`
(`Mon Jan _2 15:04:05 2006`): the day may be one digit padded by a space. -/
def parseANSIC (s : String) : Option GoTime := do
  let cs := s.data
  let (_, cs) ← matchOneOf shortDayNames 1 cs
  let cs ← expectCh ' ' cs
  let (mo, cs) ← matchOneOf shortMonthNames 1 cs
  let cs ← expectCh ' ' cs
  let cs := if cs.head? = some ' ' then cs.drop 1 else cs
  let (ds, cs) := spanDigits cs
  if ds.length = 0 ∨ 2 < ds.length then none else do
  let d := digitsToNat ds
  let cs ← expectCh ' ' cs
  let (h, mi, sec, cs) ← parseClock cs
  let cs ← expectCh ' ' cs
  let (y, cs) ← readFixedNat 4 0 cs
  if cs.isEmpty ∧ validDateTime y mo d h mi sec then
    some ⟨y, mo, d, h, mi, sec, 0, 0⟩
  else none

/-- Modelled from Go `net/http.ParseTime`: tries `http.TimeFormat`, then
`time.RFC850`, then `time.ANSIC`, first success wins. -/
def httpParseTime (s : String) : Option GoTime :=
  match parseHTTPTimeFormat s with
  | some t => some t
  | none =>
    match parseRFC850 s with
    | some t => some t
    | none => parseANSIC s

/-- The three entries of the `layouts` slice inside `parseCosTime`. -/
inductive GoLayout
  | rfc3339
  | rfc3339Nano
  | cosMilliZ
deriving Repr, DecidableEq

/-- Go `time.Parse(layout, value)` for the three layouts `parseCosTime`
iterates over, as an `Option` (the error case is `none`). -/
def goTimeParse : GoLayout → String → Option GoTime
  | .rfc3339, s => parseISO8601 s
  | .rfc3339Nano, s => parseISO8601 s
  | .cosMilliZ, s => parseMilliZ s

/-- The `for _, layout := range layouts` loop body of `parseCosTime`:
first layout that parses wins. -/
def firstLayoutParse : List GoLayout → String → Option GoTime
  | [], _ => none
  | l :: ls, v =>
    match goTimeParse l v with
    | some t => some t
    | none => firstLayoutParse ls v

/-- Embedding of `parseCosTime` from `cos.go`: empty input yields the zero
time; otherwise RFC3339, RFC3339Nano and the millisecond layout are tried
in order, then `http.ParseTime`; if nothing parses the zero time is
returned. -/
def parseCosTime (value : String) : GoTime :=
  if value = "" then timeZero
  else
    match firstLayoutParse [GoLayout.rfc3339, GoLayout.rfc3339Nano, GoLayout.cosMilliZ] value with
    | some t => t
    | none =>
      match httpParseTime value with
      | some t => t
      | none => timeZero

/-- Syntactic validity of a base-10 integer for Go
`strconv.ParseInt(s, 10, 64)`: optional sign then at least one digit. -/
def validInt64Syntax (s : String) : Bool :=
  match s.data with
  | [] => false
  | '+' :: rest => !rest.isEmpty && rest.all Char.isDigit
  | '-' :: rest => !rest.isEmpty && rest.all Char.isDigit
  | cs => cs.all Char.isDigit

def int64Max : Int := 9223372036854775807

def int64Min : Int := -9223372036854775808

/-- Modelled from Go `strconv.ParseInt(s, 10, 64)` with the returned error
discarded, as `HeadObject` does: syntax errors yield 0, and out-of-range
values are clamped to the int64 bounds (Go returns the clamped value
alongside `ErrRange`). -/
def goParseInt64 (s : String) : Int :=
  if validInt64Syntax s then
    let signed : Int :=
      match s.data with
      | '+' :: rest => (digitsToNat rest : Int)
      | '-' :: rest => -(digitsToNat rest : Int)
      | cs => (digitsToNat cs : Int)
    if signed > int64Max then int64Max
    else if signed < int64Min then int64Min
    else signed
  else 0

/-- Go `strings.HasPrefix`. -/
def goStartsWith (s p : String) : Bool := p.data.isPrefixOf s.data

/-- Go `strings.HasSuffix`. -/
def goEndsWith (s p : String) : Bool := p.data.isSuffixOf s.data

/-- Go `strings.Trim(s, "\"")`: strip all leading and trailing quote
characters. -/
def goTrimQuotes (s : String) : String :=
  ⟨((s.data.dropWhile (· = '"')).reverse.dropWhile (· = '"')).reverse⟩

/-- The fields of Go `net/url.URL` that `buildBaseURL` touches. -/
structure GoURL where
  Scheme : String
  Host : String
  Path : String
  RawQuery : String
  Fragment : String
deriving Repr, DecidableEq

/-- Characters that keep the URL scanner inside the authority part. -/
def hostChar (c : Char) : Bool := !(c == '/' || c == '?' || c == '#')

/-- Splits an authority-and-rest string at the first `/`, `?` or `#`. -/
def splitHostRest (cs : List Char) : List Char × List Char :=
  (cs.takeWhile hostChar, cs.dropWhile hostChar)

/-- Go `net/url`'s control-byte rejection (`stringContainsCtlByte`):
bytes below 0x20 and 0x7f are refused anywhere in the URL. -/
def isCtlChar (c : Char) : Bool := c.toNat < 32 || c.toNat == 127

/-- Hexadecimal digit test of Go `net/url.ishex`. -/
def isHexDigit (c : Char) : Bool :=
  c.isDigit || ('a' ≤ c && c ≤ 'f') || ('A' ≤ c && c ≤ 'F')

/-- Hexadecimal digit value of Go `net/url.unhex` (0 on non-hex input,
which the callers guard against). -/
def hexVal (c : Char) : Nat :=
  if c.isDigit then c.toNat - 48
  else if 'a' ≤ c && c ≤ 'f' then c.toNat - 87
  else if 'A' ≤ c && c ≤ 'F' then c.toNat - 55
  else 0

/-- ASCII characters Go `net/url.shouldEscape` leaves unescaped in
`encodeHost` mode: alphanumerics, the unreserved marks, the sub-delims
and `:[]<>"`.  Everything else below 0x80 is an `InvalidHostError`. -/
def hostCharAllowed (c : Char) : Bool :=
  c.isAlphanum ||
  (c == '-' || c == '_' || c == '.' || c == '~') ||
  (c == '!' || c == '$' || c == '&' || c.toNat == 39 || c == '(' || c == ')' ||
   c == '*' || c == '+' || c == ',' || c == ';' || c == '=' || c == ':' ||
   c == '[' || c == ']' || c == '<' || c == '>' || c == '"')

/-- The parts strictly before and strictly after the last occurrence of
`c`, or `none` when `c` does not occur (Go `strings.LastIndex` uses). -/
def splitAtLastChar (c : Char) (cs : List Char) : Option (List Char × List Char) :=
  if cs.contains c then
    let revAfter := cs.reverse.takeWhile (fun x => !(x == c))
    some (cs.take (cs.length - revAfter.length - 1), revAfter.reverse)
  else none

/-- The parts strictly before and strictly after the first occurrence of
`c` (all of `cs` and nothing when `c` does not occur). -/
def splitAtFirstChar (c : Char) (cs : List Char) : List Char × List Char :=
  (cs.takeWhile (fun x => !(x == c)), (cs.dropWhile (fun x => !(x == c))).drop 1)

/-- Go `net/url.validOptionalPort`: empty, or a colon followed by
decimal digits only. -/
def validOptionalPort : List Char → Bool
  | [] => true
  | ':' :: ds => ds.all Char.isDigit
  | _ => false

/-- Modelled from Go `net/url.unescape` in `encodeHost` mode: every `%`
must head two hex digits, ASCII percent-escapes other than `%25` are
refused (`EscapeError`), forbidden ASCII characters are refused
(`InvalidHostError`), and escapes are decoded.  The decoded escape is
kept as one character; Go's byte-level UTF-8 of multi-byte escapes is
not modelled. -/
def unescapeHost : List Char → Except String (List Char)
  | [] => .ok []
  | c :: rest =>
    if c == '%' then
      match rest with
      | c1 :: c2 :: rest' =>
        if isHexDigit c1 && isHexDigit c2 then
          if hexVal c1 < 8 && !(c1 == '2' && c2 == '5') then .error "invalid URL escape"
          else
            match unescapeHost rest' with
            | .error e => .error e
            | .ok tail => .ok (Char.ofNat (hexVal c1 * 16 + hexVal c2) :: tail)
        else .error "invalid URL escape"
      | _ => .error "invalid URL escape"
    else if c.toNat < 128 && !hostCharAllowed c then
      .error "invalid character in host name"
    else
      match unescapeHost rest with
      | .error e => .error e
      | .ok tail => .ok (c :: tail)

/-- The percent-escape well-formedness Go `net/url.unescape` checks in
the non-host modes (path, fragment, userinfo): every `%` heads two hex
digits.  Character errors arise only in host mode, so this is the whole
validation for those components. -/
def validEscapes : List Char → Bool
  | [] => true
  | c :: rest =>
    if c == '%' then
      match rest with
      | c1 :: c2 :: rest' => isHexDigit c1 && isHexDigit c2 && validEscapes rest'
      | _ => false
    else validEscapes rest

/-- Go `net/url.validUserinfo`: alphanumerics and the characters
`-._:~!$&'()*+,;=%@`. -/
def validUserinfo (cs : List Char) : Bool :=
  cs.all fun c =>
    c.isAlphanum ||
    (c == '-' || c == '.' || c == '_' || c == ':' || c == '~' || c == '!' ||
     c == '$' || c == '&' || c.toNat == 39 || c == '(' || c == ')' || c == '*' ||
     c == '+' || c == ',' || c == ';' || c == '=' || c == '%' || c == '@')

/-- Modelled from Go `net/url.parseHost`: a bracketed address needs its
closing bracket and a valid optional port after it, an unbracketed host
needs a valid port after its last colon, and the host is then unescaped
and character-validated.  The IPv6 zone-identifier special case inside
brackets is not modelled. -/
def parseHostModel (host : List Char) : Except String (List Char) :=
  if host.head? == some '[' then
    match splitAtLastChar ']' host with
    | none => .error "missing ']' in host"
    | some (_, afterBr) =>
      if validOptionalPort afterBr then unescapeHost host
      else .error "invalid port after host"
  else
    match splitAtLastChar ':' host with
    | none => unescapeHost host
    | some (_, afterCol) =>
      if validOptionalPort (':' :: afterCol) then unescapeHost host
      else .error "invalid port after host"

/-- Modelled from Go `net/url.parseAuthority`: the host follows the last
`@`; any userinfo before it must pass `validUserinfo` and have
well-formed percent-escapes.  The userinfo value itself is dropped —
`buildBaseURL` never reads it. -/
def parseAuthorityModel (auth : List Char) : Except String (List Char) :=
  match splitAtLastChar '@' auth with
  | none => parseHostModel auth
  | some (userinfo, host) =>
    match parseHostModel host with
    | .error e => .error e
    | .ok h =>
      if validUserinfo userinfo && validEscapes userinfo then .ok h
      else .error "net/url: invalid userinfo"

/-- Modelled from Go `net/url.Parse` for the `scheme://…` inputs
`buildBaseURL` constructs: control characters are refused anywhere, the
authority runs to the first `/`, `?` or `#`, userinfo, port and host are
validated per `parseAuthorityModel`, and the path and fragment must have
well-formed percent-escapes (the query is stored unvalidated).  The raw
part after the authority is left in `Path` because `buildBaseURL` clears
`Path`, `RawQuery` and `Fragment` before use. -/
def goURLParse (rawurl : String) : Except String GoURL :=
  if rawurl.data.any isCtlChar then
    .error "net/url: invalid control character in URL"
  else if goStartsWith rawurl "https://" then
    let (auth, rest) := splitHostRest (rawurl.data.drop 8)
    let (preFrag, frag) := splitAtFirstChar '#' rest
    let (path, _query) := splitAtFirstChar '?' preFrag
    if validEscapes path && validEscapes frag then
      match parseAuthorityModel auth with
      | .error e => .error e
      | .ok h => .ok ⟨"https", ⟨h⟩, ⟨rest⟩, "", ""⟩
    else .error "invalid URL escape"
  else if goStartsWith rawurl "http://" then
    let (auth, rest) := splitHostRest (rawurl.data.drop 7)
    let (preFrag, frag) := splitAtFirstChar '#' rest
    let (path, _query) := splitAtFirstChar '?' preFrag
    if validEscapes path && validEscapes frag then
      match parseAuthorityModel auth with
      | .error e => .error e
      | .ok h => .ok ⟨"http", ⟨h⟩, ⟨rest⟩, "", ""⟩
    else .error "invalid URL escape"
  else .error "unsupported url"

/-- Characters of a region for which the synthesized endpoint's host is
kept verbatim by `goURLParse`: inside the authority (no `/`, `?`, `#`),
triggering no userinfo split, port parse or escape decoding (no `@`,
`:`, `%`), not a control character, and — when ASCII — allowed in a host
by Go's `encodeHost` escaping rules. -/
def regionSafeChar (c : Char) : Bool :=
  !(c == '/') && !(c == '?') && !(c == '#') && !(c == '@') && !(c == ':') &&
    !(c == '%') && !isCtlChar c && (!(c.toNat < 128) || hostCharAllowed c)

/-- A region string every character of which is `regionSafeChar`. -/
def hostSafe (s : String) : Bool := s.data.all regionSafeChar

/-- Go `cosv5.BaseURL` restricted to the two URL fields `buildBaseURL`
fills. -/
structure BaseURL where
  ServiceURL : GoURL
  BucketURL : GoURL
deriving Repr, DecidableEq

/-- Embedding of `buildBaseURL` from `cos.go`. -/
def buildBaseURL (bucketName endpoint region : String) : Except String BaseURL :=
  if bucketName = "" then .error "cos bucket name is empty"
  else if endpoint = "" ∧ region = "" then
    .error "cos endpoint is empty and region is missing"
  else
    let endpoint₁ :=
      if endpoint = "" then "https://cos." ++ region ++ ".myqcloud.com" else endpoint
    let endpoint₂ :=
      if !goStartsWith endpoint₁ "http://" && !goStartsWith endpoint₁ "https://" then
        "https://" ++ endpoint₁
      else endpoint₁
    match goURLParse endpoint₂ with
    | .error e => .error ("parse cos endpoint failed: " ++ e)
    | .ok serviceURL₀ =>
      let serviceURL : GoURL := { serviceURL₀ with Path := "", RawQuery := "", Fragment := "" }
      let bucketHost :=
        if !goStartsWith serviceURL.Host (bucketName ++ ".") then
          bucketName ++ "." ++ serviceURL.Host
        else serviceURL.Host
      .ok ⟨serviceURL, { serviceURL with Host := bucketHost }⟩

/-- A listed object as returned inside `cosv5.BucketGetResult.Contents`. -/
structure RemoteObject where
  Key : String
  Size : Int
  LastModified : String
  ETag : String
deriving Repr, DecidableEq

/-- The fields of `cosv5.BucketGetResult` the client reads. -/
structure BucketGetResult where
  Contents : List RemoteObject
  NextMarker : String
  IsTruncated : Bool
deriving Repr, DecidableEq

/-- Response headers of a successful remote head call, as raw strings the
client parses itself. -/
structure HeadResp where
  contentLength : String
  lastModified : String
  eTag : String
deriving Repr, DecidableEq

/-- A failed remote head call; `notFound` is what `cosv5.IsNotFoundError`
reports for it. -/
structure RemoteHeadErr where
  notFound : Bool
  msg : String
deriving Repr, DecidableEq

/-- The `cosv5.ObjectPutOptions` fields `PutObjectWithReader` fills and
sends to `client.Object.Put`.  `Expires` keeps the time value; its
HTTP-date string rendering is not modelled. -/
structure CosPutOptions where
  ContentType : String := ""
  ContentEncoding : String := ""
  ContentDisposition : String := ""
  ContentLanguage : String := ""
  Expires : Option GoTime := none
  ContentLength : Int := 0
  XCosTagging : Option String := none
deriving Repr, DecidableEq

/-- The remote object-store SDK (the external collaborator), as pure
functions the client is parameterized by. -/
structure Remote where
  bucketGet : String → String → Int → Except String BucketGetResult
  getTagging : String → Except String (List (String × String))
  headObject : String → Except RemoteHeadErr HeadResp
  presignURL : String → Int → Except String String
  putObject : String → CosPutOptions → Except String Unit

/-- One remote SDK invocation, recorded in the order the model performs
them (the concurrent tag fan-out is sequentialized). -/
inductive RemoteCall
  | bucketGet (pre marker : String) (maxKeys : Int)
  | getTagging (key : String)
  | head (key : String)
  | presign (key : String) (expireSeconds : Int)
  | put (key : String) (options : CosPutOptions)
deriving Repr, DecidableEq

/-- Client errors.  The Go code returns `error` values; the exported
sentinel `storage.ErrObjectNotFound` is the distinguished constructor and
every other error carries its message. -/
inductive ClientErr
  | objectNotFound
  | err (msg : String)
deriving Repr, DecidableEq

/-- Modelled from the spec (§3): `storage.FileInfo`, absent from `src/`.
Key, size, last-modified and quote-stripped eTag, with optional tagging
and URL filled by enrichment. -/
structure FileInfo where
  Key : String
  Size : Int
  LastModified : GoTime
  ETag : String
  Tagging : Option (List (String × String)) := none
  URL : String := ""
deriving Repr, DecidableEq

/-- Modelled from the spec (§3): `storage.GetOption`, absent from `src/`:
listing behaviour flags `withTagging`, `withURL` and `expire` seconds. -/
structure GetOption where
  WithTagging : Bool := false
  WithURL : Bool := false
  Expire : Int := 0
deriving Repr, DecidableEq

/-- Modelled from the spec (§3): `storage.PutOption`, absent from `src/`:
optional HTTP metadata, an object size, and tags. -/
structure PutOption where
  ContentType : Option String := none
  ContentEncoding : Option String := none
  ContentDisposition : Option String := none
  ContentLanguage : Option String := none
  Expires : Option GoTime := none
  ObjectSize : Int := 0
  Tagging : List (String × String) := []
deriving Repr, DecidableEq

/-- Go `storage.GetOptFn`. -/
def GetOptFn : Type := GetOption → GetOption

/-- Go `storage.PutOptFn`. -/
def PutOptFn : Type := PutOption → PutOption

/-- The `for _, optFn := range opts { optFn(&opt) }` pattern. -/
def applyGetOpts (opts : List GetOptFn) : GetOption :=
  opts.foldl (fun o f => f o) {}

/-- The `for _, opt := range opts { opt(&option) }` pattern. -/
def applyPutOpts (opts : List PutOptFn) : PutOption :=
  opts.foldl (fun o f => f o) {}

/-- Modelled from the spec (§3): `storage.WithObjectSize`, absent from
`src/`: records the caller-supplied object size in the put options. -/
def WithObjectSize (size : Int) : PutOptFn :=
  fun o => { o with ObjectSize := size }

/-- Embedding of `cosTagsToMap` from `cos.go`: `nil` for an empty tag set,
otherwise the key-value pairs.  Go builds a `map[string]string`; the
association list keeps the remote's pair order, which is immaterial to the
claims. -/
def cosTagsToMap (tags : List (String × String)) : Option (List (String × String)) :=
  if tags.length = 0 then none else some tags

/-- Modelled from the spec (§3): `goutil.MapToQuery`, absent from `src/`:
`k1=v1&k2=v2`-style query encoding of the tag set. -/
def mapToQuery (m : List (String × String)) : String :=
  String.intercalate "&" (m.map fun kv => kv.1 ++ "=" ++ kv.2)

/-- The option-translation block of `PutObjectWithReader`: building the
`cosv5.ObjectPutOptions` from the applied `storage.PutOption`.  Go sets
each field with an independent nil/zero guard, leaving the zero value
otherwise; that if-chain is rendered field-wise. -/
def buildPutOptions (option : PutOption) : CosPutOptions :=
  { ContentType := option.ContentType.getD ""
    ContentEncoding := option.ContentEncoding.getD ""
    ContentDisposition := option.ContentDisposition.getD ""
    ContentLanguage := option.ContentLanguage.getD ""
    Expires := option.Expires
    ContentLength := if option.ObjectSize > 0 then option.ObjectSize else 0
    XCosTagging :=
      if option.Tagging.length > 0 then some (mapToQuery option.Tagging) else none }

/-- Embedding of `PutObjectWithReader` from `cos.go`: applies the caller's
options, builds the remote put options and performs the remote put.  The
reader's byte stream is opaque to this layer and is elided; only the
options it sends are modelled. -/
def PutObjectWithReader (r : Remote) (objectKey : String) (opts : List PutOptFn) :
    Except ClientErr Unit × List RemoteCall :=
  let putOption := buildPutOptions (applyPutOpts opts)
  (match r.putObject objectKey putOption with
   | .error e => .error (.err ("put object failed: " ++ e))
   | .ok _ => .ok (), [.put objectKey putOption])

/-- Embedding of `PutObject` from `cos.go`: appends
`WithObjectSize(len(content))` to the caller's options and delegates to
`PutObjectWithReader`. -/
def PutObject (r : Remote) (objectKey : String) (content : List UInt8)
    (opts : List PutOptFn) : Except ClientErr Unit × List RemoteCall :=
  PutObjectWithReader r objectKey (opts ++ [WithObjectSize (content.length : Int)])

/-- Embedding of `GetObjectUrl` from `cos.go`: presigns with the default
seven-day expiry unless the caller supplied a positive one. -/
def GetObjectUrl (r : Remote) (objectKey : String) (opts : List GetOptFn) :
    Except ClientErr String × List RemoteCall :=
  let opt := applyGetOpts opts
  let expire : Int := if opt.Expire > 0 then opt.Expire else 7 * 24 * 60 * 60
  match r.presignURL objectKey expire with
  | .error e => (.error (.err e), [.presign objectKey expire])
  | .ok u => (.ok u, [.presign objectKey expire])

/-- Conversion of one listed remote object into a `storage.FileInfo`, as
the page loop of `ListObjectsPaginated` performs it. -/
def objToFileInfo (o : RemoteObject) : FileInfo :=
  { Key := o.Key
    LastModified := parseCosTime o.LastModified
    ETag := goTrimQuotes o.ETag
    Size := o.Size }

/-- The Go page loop `for _, obj := range result.Contents` with its
`continue` on zero-size keys ending in `/`, written as filter-then-map. -/
def pageFiles (result : BucketGetResult) : List FileInfo :=
  (result.Contents.filter fun o => !(o.Size == 0 && goEndsWith o.Key "/")).map objToFileInfo

/-- Modelled from the spec (§4.5, §5): the `taskgroup` tag fan-out of
`ListObjectsPaginated`, sequentialized.  The concurrency bound of five is
not observable in this model; `Wait` surfaces the first error and the
partially mutated page is discarded by the caller on error, so the model
rebuilds the list and fails fast. -/
def enrichTagging (r : Remote) : List FileInfo → Except String (List FileInfo) × List RemoteCall
  | [] => (.ok [], [])
  | f :: fs =>
    match r.getTagging f.Key with
    | .error e => (.error e, [.getTagging f.Key])
    | .ok ts =>
      match enrichTagging r fs with
      | (.error e, tr) => (.error e, .getTagging f.Key :: tr)
      | (.ok fs', tr) => (.ok ({ f with Tagging := cosTagsToMap ts } :: fs'), .getTagging f.Key :: tr)

/-- Modelled from the spec (§4.5): `fileutil.AssembleFileUrl`, absent from
`src/`: derives a presigned URL for every item via the client's presign
path with the caller's expire seconds, failing fast on the first error;
only the `URL` field is written. -/
def assembleFileUrl (r : Remote) (expire : Int) :
    List FileInfo → Except String (List FileInfo) × List RemoteCall
  | [] => (.ok [], [])
  | f :: fs =>
    let eff : Int := if expire > 0 then expire else 7 * 24 * 60 * 60
    match r.presignURL f.Key eff with
    | .error e => (.error e, [.presign f.Key eff])
    | .ok u =>
      match assembleFileUrl r expire fs with
      | (.error e, tr) => (.error e, .presign f.Key eff :: tr)
      | (.ok fs', tr) => (.ok ({ f with URL := u } :: fs'), .presign f.Key eff :: tr)

/-- Go `storage.ListObjectsPaginatedInput`. -/
structure ListObjectsPaginatedInput where
  Prefix : String
  PageSize : Int
  Cursor : String
deriving Repr, DecidableEq

/-- Go `storage.ListObjectsPaginatedOutput`. -/
structure ListObjectsPaginatedOutput where
  Files : List FileInfo
  Cursor : String
  IsTruncated : Bool
deriving Repr, DecidableEq

/-- Embedding of `ListObjectsPaginated` from `cos.go`.  A `none` input is
Go's nil pointer.  The result is paired with the trace of remote calls
made. -/
def ListObjectsPaginated (r : Remote) (input : Option ListObjectsPaginatedInput)
    (opts : List GetOptFn) :
    Except ClientErr ListObjectsPaginatedOutput × List RemoteCall :=
  match input with
  | none => (.error (.err "input cannot be nil"), [])
  | some input =>
    if input.PageSize ≤ 0 then (.error (.err "page size must be positive"), [])
    else
      match r.bucketGet input.Prefix input.Cursor input.PageSize with
      | .error e =>
        (.error (.err ("list objects failed: " ++ e)),
         [.bucketGet input.Prefix input.Cursor input.PageSize])
      | .ok result =>
        let listCall := RemoteCall.bucketGet input.Prefix input.Cursor input.PageSize
        let files := pageFiles result
        let opt := applyGetOpts opts
        match (if opt.WithTagging then enrichTagging r files else (.ok files, [])) with
        | (.error e, tagTrace) => (.error (.err e), listCall :: tagTrace)
        | (.ok files₁, tagTrace) =>
          match (if opt.WithURL then assembleFileUrl r opt.Expire files₁ else (.ok files₁, [])) with
          | (.error e, urlTrace) => (.error (.err e), listCall :: (tagTrace ++ urlTrace))
          | (.ok files₂, urlTrace) =>
            (.ok ⟨files₂, result.NextMarker, result.IsTruncated⟩,
             listCall :: (tagTrace ++ urlTrace))

/-- The drain loop of `ListAllObjects`, with explicit fuel standing in for
the unbounded `for` loop; `none` means the fuel ran out before the Go loop
would have terminated.  The constants are `defaultPageSize = 100` and
`maxListObjects = 10000` from the source. -/
def listAllLoop (r : Remote) (pre : String) (opts : List GetOptFn) :
    Nat → List FileInfo → String → List RemoteCall →
    Option (Except ClientErr (List FileInfo) × List RemoteCall)
  | 0, _, _, _ => none
  | fuel + 1, files, cursor, tr =>
    match ListObjectsPaginated r (some ⟨pre, 100, cursor⟩) opts with
    | (.error e, tr') => some (.error e, tr ++ tr')
    | (.ok output, tr') =>
      let files := files ++ output.Files
      if 10000 ≤ files.length then some (.ok files, tr ++ tr')
      else if !output.IsTruncated || output.Cursor == "" then some (.ok files, tr ++ tr')
      else listAllLoop r pre opts fuel files output.Cursor (tr ++ tr')

/-- Embedding of `ListAllObjects` from `cos.go`: drains
`ListObjectsPaginated` from the empty cursor. -/
def ListAllObjects (r : Remote) (pre : String) (opts : List GetOptFn) (fuel : Nat) :
    Option (Except ClientErr (List FileInfo) × List RemoteCall) :=
  listAllLoop r pre opts fuel [] "" []

/-- Embedding of `HeadObject` from `cos.go`: maps the remote's not-found
condition to the `ObjectNotFound` sentinel, parses the response headers
discarding parse errors, and optionally enriches with tags and a presigned
URL. -/
def HeadObject (r : Remote) (objectKey : String) (opts : List GetOptFn) :
    Except ClientErr FileInfo × List RemoteCall :=
  match r.headObject objectKey with
  | .error e =>
    (.error (if e.notFound then .objectNotFound else .err e.msg), [.head objectKey])
  | .ok resp =>
    let size := goParseInt64 resp.contentLength
    let lastModified := (httpParseTime resp.lastModified).getD timeZero
    let fileInfo : FileInfo :=
      { Key := objectKey
        LastModified := lastModified
        ETag := goTrimQuotes resp.eTag
        Size := size }
    let opt := applyGetOpts opts
    match (if opt.WithTagging then some (r.getTagging objectKey) else none) with
    | some (.error e) => (.error (.err e), [.head objectKey, .getTagging objectKey])
    | tagRes =>
      let fileInfo :=
        match tagRes with
        | some (.ok ts) => { fileInfo with Tagging := cosTagsToMap ts }
        | _ => fileInfo
      let tagTrace : List RemoteCall :=
        match tagRes with
        | some _ => [.getTagging objectKey]
        | none => []
      if opt.WithURL then
        match GetObjectUrl r objectKey opts with
        | (.error e, utr) => (.error e, .head objectKey :: (tagTrace ++ utr))
        | (.ok u, utr) =>
          (.ok { fileInfo with URL := u }, .head objectKey :: (tagTrace ++ utr))
      else (.ok fileInfo, .head objectKey :: tagTrace)

/-- A collaborator that accepts everything, used for concrete runs. -/
def okRemote : Remote :=
  { bucketGet := fun _ _ _ => .ok ⟨[], "", false⟩
    getTagging := fun _ => .ok []
    headObject := fun _ => .ok ⟨"", "", ""⟩
    presignURL := fun k _ => .ok ("https://signed/" ++ k)
    putObject := fun _ _ => .ok () }

/-- Key-and-size projection of a file entry, used to state that listing
returns the remote page's entries unchanged and in order. -/
def fileKeySize (f : FileInfo) : String × Int := (f.Key, f.Size)

/-- A one-byte object that survives the pseudo-directory filter. -/
def bigObj : RemoteObject := ⟨"a", 1, "", ""⟩

/-- A collaborator reporting indefinite truncation with 9999-object pages
(the remote, not this client, chooses how many keys a page holds). -/
def bigPageRemote : Remote :=
  { okRemote with bucketGet := fun _ _ _ => .ok ⟨List.replicate 9999 bigObj, "next", true⟩ }

/-- Modelled from the spec (§3): the get-option setter for the
`withTagging` listing flag. -/
def WithGetTagging : GetOptFn := fun o => { o with WithTagging := true }

/-- A collaborator with a single listed object and a constant tag set. -/
def taggedRemote : Remote :=
  { okRemote with
      bucketGet := fun _ _ _ => .ok ⟨[⟨"a", 1, "", ""⟩], "", false⟩
      getTagging := fun _ => .ok [("k1", "v1")] }

/-- A collaborator whose head call reports the not-found condition. -/
def notFoundRemote : Remote :=
  { okRemote with headObject := fun _ => .error ⟨true, "missing"⟩ }

/-- A collaborator whose head call succeeds with malformed headers. -/
def malformedHeadRemote : Remote :=
  { okRemote with headObject := fun _ => .ok ⟨"xx", "yy", "e"⟩ }

lemma goTimeParse_empty (l : GoLayout) : goTimeParse l "" = none := by
  cases l <;> rfl

lemma httpParseTime_empty : httpParseTime "" = none := rfl

/-- C9: `parseCosTime` is total — it never errors.  The empty string
yields the zero timestamp; otherwise RFC3339, RFC3339 with fractional
seconds, the millisecond layout `2006-01-02T15:04:05.000Z` and then
HTTP-date are tried in that order and the first that parses wins; if none
parse, the zero timestamp is returned. -/
theorem parseCosTime_total_layout_order (s : String) :
    parseCosTime "" = timeZero ∧
    (∀ t, goTimeParse GoLayout.rfc3339 s = some t → parseCosTime s = t) ∧
    (goTimeParse GoLayout.rfc3339 s = none →
      ∀ t, goTimeParse GoLayout.rfc3339Nano s = some t → parseCosTime s = t) ∧
    (goTimeParse GoLayout.rfc3339 s = none →
      goTimeParse GoLayout.rfc3339Nano s = none →
      ∀ t, goTimeParse GoLayout.cosMilliZ s = some t → parseCosTime s = t) ∧
    (goTimeParse GoLayout.rfc3339 s = none →
      goTimeParse GoLayout.rfc3339Nano s = none →
      goTimeParse GoLayout.cosMilliZ s = none →
      ∀ t, httpParseTime s = some t → parseCosTime s = t) ∧
    (goTimeParse GoLayout.rfc3339 s = none →
      goTimeParse GoLayout.rfc3339Nano s = none →
      goTimeParse GoLayout.cosMilliZ s = none → httpParseTime s = none →
      parseCosTime s = timeZero) := by
  refine ⟨rfl, ?_, ?_, ?_, ?_, ?_⟩
  · intro t h
    have hs : ¬ s = "" := fun he => by
      rw [he, goTimeParse_empty] at h; exact Option.noConfusion h
    simp only [parseCosTime, if_neg hs, firstLayoutParse, h]
  · intro h1 t h
    have hs : ¬ s = "" := fun he => by
      rw [he, goTimeParse_empty] at h; exact Option.noConfusion h
    simp only [parseCosTime, if_neg hs, firstLayoutParse, h1, h]
  · intro h1 h2 t h
    have hs : ¬ s = "" := fun he => by
      rw [he, goTimeParse_empty] at h; exact Option.noConfusion h
    simp only [parseCosTime, if_neg hs, firstLayoutParse, h1, h2, h]
  · intro h1 h2 h3 t h
    have hs : ¬ s = "" := fun he => by
      rw [he, httpParseTime_empty] at h; exact Option.noConfusion h
    simp only [parseCosTime, if_neg hs, firstLayoutParse, h1, h2, h3, h]
  · intro h1 h2 h3 h4
    by_cases hs : s = ""
    · rw [hs]; rfl
    · simp only [parseCosTime, if_neg hs, firstLayoutParse, h1, h2, h3, h4]

/-- Witness for C9: the HTTP-date branch fires on a real HTTP date after
the three ISO layouts fail. -/
theorem parseCosTime_total_layout_order_witness :
    parseCosTime "Wed, 02 Oct 2002 08:00:00 GMT" = ⟨2002, 10, 2, 8, 0, 0, 0, 0⟩ :=
  (parseCosTime_total_layout_order "Wed, 02 Oct 2002 08:00:00 GMT").2.2.2.2.1
    (by decide) (by decide) (by decide) ⟨2002, 10, 2, 8, 0, 0, 0, 0⟩ (by decide)

lemma splitHostRest_all_safe (cs : List Char) (h : cs.all hostChar = true) :
    splitHostRest cs = (cs, []) := by
  have h' : ∀ a ∈ cs, hostChar a = true := List.all_eq_true.mp h
  simp [splitHostRest, List.takeWhile_eq_self_iff.mpr h', List.dropWhile_eq_nil_iff.mpr h']

/-- C7 counterexample: with bucket name `cos` and region `ap/x` resolution
succeeds, yet the service host is `cos.ap` (the synthesized endpoint is
cut at the slash) and the bucket host carries no `cos.` prepended label
(the service host already starts with `cos.`), contradicting the claimed
`cos.<region>.myqcloud.com` and `<bucket>.cos.<region>.myqcloud.com`
hosts. -/
theorem buildBaseURL_region_counterexample :
    buildBaseURL "cos" "" "ap/x" =
      .ok ⟨⟨"https", "cos.ap", "", "", ""⟩, ⟨"https", "cos.ap", "", "", ""⟩⟩ ∧
    ("cos.ap" ≠ "cos.ap/x.myqcloud.com" ∧ "cos.ap" ≠ "cos.cos.ap/x.myqcloud.com") := by
  refine ⟨?_, by decide, by decide⟩
  rfl

lemma all_mono {p q : Char → Bool} (h : ∀ c, p c = true → q c = true)
    {cs : List Char} (hall : cs.all p = true) : cs.all q = true := by
  rw [List.all_eq_true] at hall ⊢
  exact fun c hc => h c (hall c hc)

lemma regionSafeChar_split (c : Char) (h : regionSafeChar c = true) :
    hostChar c = true ∧ isCtlChar c = false ∧ (c == '%') = false ∧
      (c.toNat < 128 → hostCharAllowed c = true) ∧ ¬ c = '@' ∧ ¬ c = ':' := by
  unfold regionSafeChar at h
  unfold hostChar
  simp only [Bool.and_eq_true, Bool.not_eq_true', beq_eq_false_iff_ne, ne_eq,
    Bool.or_eq_true, Bool.not_eq_true, decide_eq_true_eq, Bool.not_eq_eq_eq_not,
    Bool.not_true, Bool.or_eq_false_iff, decide_eq_false_iff_not] at h ⊢
  tauto

lemma contains_false_of_safe {cs : List Char} (c : Char)
    (hall : cs.all regionSafeChar = true) (hc : regionSafeChar c = false) :
    cs.contains c = false := by
  have hnm : ¬ c ∈ cs := fun hmem => by
    rw [List.all_eq_true] at hall
    rw [hall c hmem] at hc
    exact Bool.noConfusion hc
  simpa using hnm

lemma splitAtLastChar_none {c : Char} {cs : List Char} (h : cs.contains c = false) :
    splitAtLastChar c cs = none := by
  unfold splitAtLastChar
  rw [h]
  rfl

lemma unescapeHost_of_safe {cs : List Char} (hall : cs.all regionSafeChar = true) :
    unescapeHost cs = .ok cs := by
  induction cs with
  | nil => rfl
  | cons c rest ih =>
    rw [List.all_cons, Bool.and_eq_true] at hall
    obtain ⟨hsafe, hrest⟩ := hall
    obtain ⟨-, -, hpc, hhc, -, -⟩ := regionSafeChar_split c hsafe
    have h2 : (decide (c.toNat < 128) && !hostCharAllowed c) = false := by
      by_cases hlt : c.toNat < 128
      · rw [hhc hlt]
        simp
      · simp [hlt]
    unfold unescapeHost
    rw [hpc, h2, ih hrest]
    rfl

lemma parseHostModel_safe {rest : List Char}
    (hall : ('c' :: rest).all regionSafeChar = true) :
    parseHostModel ('c' :: rest) = .ok ('c' :: rest) := by
  have hbr : ((('c' :: rest).head?) == some '[') = false := rfl
  have hcol : splitAtLastChar ':' ('c' :: rest) = none :=
    splitAtLastChar_none (contains_false_of_safe ':' hall (by decide))
  unfold parseHostModel
  rw [hbr, hcol]
  exact unescapeHost_of_safe hall

lemma parseAuthorityModel_safe {rest : List Char}
    (hall : ('c' :: rest).all regionSafeChar = true) :
    parseAuthorityModel ('c' :: rest) = .ok ('c' :: rest) := by
  have hat : splitAtLastChar '@' ('c' :: rest) = none :=
    splitAtLastChar_none (contains_false_of_safe '@' hall (by decide))
  unfold parseAuthorityModel
  rw [hat]
  exact parseHostModel_safe hall

lemma any_ctl_false_of_safe {cs : List Char} (hall : cs.all regionSafeChar = true) :
    cs.any isCtlChar = false := by
  rw [List.any_eq_not_all_not]
  rw [all_mono (fun c hc => by rw [(regionSafeChar_split c hc).2.1]; rfl) hall]
  rfl

/-- On the endpoint synthesized from an empty endpoint and a safe region,
the modelled `url.Parse` succeeds with the whole authority as host. -/
lemma goURLParse_synth (region : String) (hsafe : hostSafe region = true) :
    goURLParse ("https://cos." ++ region ++ ".myqcloud.com") =
      .ok ⟨"https", "cos." ++ region ++ ".myqcloud.com", "", "", ""⟩ := by
  have hsafe' : region.data.all regionSafeChar = true := hsafe
  have hd : ("cos." ++ region ++ ".myqcloud.com").data
      = 'c' :: 'o' :: 's' :: '.' ::
        (region.data ++ ['.', 'm', 'y', 'q', 'c', 'l', 'o', 'u', 'd', '.', 'c', 'o', 'm']) := by
    simp [String.data_append]
  have hallL : ('c' :: ('o' :: 's' :: '.' ::
      (region.data ++ ['.', 'm', 'y', 'q', 'c', 'l', 'o', 'u', 'd', '.', 'c', 'o', 'm']))).all
        regionSafeChar = true := by
    simp only [List.all_cons, List.all_append, Bool.and_eq_true, hsafe']
    refine ⟨by decide, by decide, by decide, by decide, trivial, by decide⟩
  have hpre : ("https://cos." ++ region ++ ".myqcloud.com").data
      = "https://".data ++ ("cos." ++ region ++ ".myqcloud.com").data := by
    simp [String.data_append]
  have h1 : goStartsWith ("https://cos." ++ region ++ ".myqcloud.com") "https://" = true := by
    unfold goStartsWith
    rw [List.isPrefixOf_iff_prefix, hpre]
    exact List.prefix_append _ _
  have hdrop : ("https://cos." ++ region ++ ".myqcloud.com").data.drop 8
      = 'c' :: ('o' :: 's' :: '.' ::
        (region.data ++ ['.', 'm', 'y', 'q', 'c', 'l', 'o', 'u', 'd', '.', 'c', 'o', 'm'])) := by
    rw [hpre]
    exact (List.drop_left' (show ("https://".data).length = 8 from rfl)).trans hd
  have hctl : ("https://cos." ++ region ++ ".myqcloud.com").data.any isCtlChar = false := by
    rw [hpre, List.any_append, hd]
    rw [show ('c' :: 'o' :: 's' :: '.' ::
      (region.data ++ ['.', 'm', 'y', 'q', 'c', 'l', 'o', 'u', 'd', '.', 'c', 'o', 'm'])).any
        isCtlChar = false from any_ctl_false_of_safe hallL]
    decide
  have hsr : splitHostRest ('c' :: ('o' :: 's' :: '.' ::
      (region.data ++ ['.', 'm', 'y', 'q', 'c', 'l', 'o', 'u', 'd', '.', 'c', 'o', 'm'])))
      = ('c' :: ('o' :: 's' :: '.' ::
        (region.data ++ ['.', 'm', 'y', 'q', 'c', 'l', 'o', 'u', 'd', '.', 'c', 'o', 'm'])), []) :=
    splitHostRest_all_safe _ (all_mono (fun c hc => (regionSafeChar_split c hc).1) hallL)
  have hauth := parseAuthorityModel_safe hallL
  have hmkL : String.mk ('c' :: 'o' :: 's' :: '.' ::
      (region.data ++ ['.', 'm', 'y', 'q', 'c', 'l', 'o', 'u', 'd', '.', 'c', 'o', 'm']))
      = "cos." ++ region ++ ".myqcloud.com" := by rw [← hd]
  unfold goURLParse
  rw [hctl, h1, hdrop, hsr]
  simp [hauth, hmkL, splitAtFirstChar, validEscapes]

/-- C7 amended: for every non-empty bucket and non-empty region whose
characters survive a Go URL host verbatim (no `/`, `?`, `#`, `@`, `:`,
`%`, no control characters, and ASCII only where Go's host escaping
allows it), resolving with an empty endpoint succeeds with scheme
`https` and service host `cos.<region>.myqcloud.com`; the bucket host is
`<bucket>.` prepended to the service host unless the service host
already starts with `<bucket>.`, in which case it is the service host
unchanged.  Resolution fails when the bucket name is empty or when
endpoint and region are both empty. -/
theorem buildBaseURL_resolve_amended (bucket region : String) (hb : ¬ bucket = "")
    (hr : ¬ region = "") (hsafe : hostSafe region = true) :
    (∃ base, buildBaseURL bucket "" region = .ok base ∧
      base.ServiceURL.Scheme = "https" ∧
      base.ServiceURL.Host = "cos." ++ region ++ ".myqcloud.com" ∧
      (goStartsWith base.ServiceURL.Host (bucket ++ ".") = false →
        base.BucketURL.Host = bucket ++ "." ++ base.ServiceURL.Host) ∧
      (goStartsWith base.ServiceURL.Host (bucket ++ ".") = true →
        base.BucketURL.Host = base.ServiceURL.Host)) ∧
    (∀ e rg, ∃ msg, buildBaseURL "" e rg = .error msg) ∧
    (∀ b, ∃ msg, buildBaseURL b "" "" = .error msg) := by
  refine ⟨?_, ?_, ?_⟩
  · have hpre : ("https://cos." ++ region ++ ".myqcloud.com").data
        = "https://".data ++ ("cos." ++ region ++ ".myqcloud.com").data := by
      simp [String.data_append]
    have h1 : goStartsWith ("https://cos." ++ region ++ ".myqcloud.com") "https://" = true := by
      unfold goStartsWith
      rw [List.isPrefixOf_iff_prefix, hpre]
      exact List.prefix_append _ _
    cases hgs : goStartsWith ("cos." ++ region ++ ".myqcloud.com") (bucket ++ ".") with
    | false =>
      refine ⟨⟨⟨"https", "cos." ++ region ++ ".myqcloud.com", "", "", ""⟩,
              ⟨"https", bucket ++ "." ++ ("cos." ++ region ++ ".myqcloud.com"), "", "", ""⟩⟩,
        ?_, rfl, rfl, fun _ => rfl, fun hc => absurd (hgs.symm.trans hc) (by decide)⟩
      simp [buildBaseURL, hb, hr, h1, goURLParse_synth region hsafe, hgs]
    | true =>
      refine ⟨⟨⟨"https", "cos." ++ region ++ ".myqcloud.com", "", "", ""⟩,
              ⟨"https", "cos." ++ region ++ ".myqcloud.com", "", "", ""⟩⟩,
        ?_, rfl, rfl, fun hc => absurd (hgs.symm.trans hc) (by decide), fun _ => rfl⟩
      simp [buildBaseURL, hb, hr, h1, goURLParse_synth region hsafe, hgs]
  · intro e rg
    exact ⟨"cos bucket name is empty", by simp [buildBaseURL]⟩
  · intro b
    by_cases hb' : b = ""
    · exact ⟨"cos bucket name is empty", by simp [buildBaseURL, hb']⟩
    · exact ⟨"cos endpoint is empty and region is missing", by simp [buildBaseURL, hb']⟩

/-- Witness for the amended C7 at bucket `demo-bucket`, region
`ap-shanghai`. -/
theorem buildBaseURL_resolve_amended_witness :
    (∃ base, buildBaseURL "demo-bucket" "" "ap-shanghai" = .ok base ∧
      base.ServiceURL.Scheme = "https" ∧
      base.ServiceURL.Host = "cos." ++ "ap-shanghai" ++ ".myqcloud.com" ∧
      (goStartsWith base.ServiceURL.Host ("demo-bucket" ++ ".") = false →
        base.BucketURL.Host = "demo-bucket" ++ "." ++ base.ServiceURL.Host) ∧
      (goStartsWith base.ServiceURL.Host ("demo-bucket" ++ ".") = true →
        base.BucketURL.Host = base.ServiceURL.Host)) ∧
    (∀ e rg, ∃ msg, buildBaseURL "" e rg = .error msg) ∧
    (∀ b, ∃ msg, buildBaseURL b "" "" = .error msg) :=
  buildBaseURL_resolve_amended "demo-bucket" "ap-shanghai" (by decide) (by decide) (by decide)

/-- C8: bucket-host derivation is idempotent — whenever resolution
succeeds, the bucket host equals the service host unchanged when the
service host already starts with `<bucketName>.`, and otherwise is
`<bucketName>.` prepended to the service host. -/
theorem buildBaseURL_bucketHost_idempotent (bucket endpoint region : String)
    (base : BaseURL) (h : buildBaseURL bucket endpoint region = .ok base) :
    (goStartsWith base.ServiceURL.Host (bucket ++ ".") = true →
      base.BucketURL.Host = base.ServiceURL.Host) ∧
    (goStartsWith base.ServiceURL.Host (bucket ++ ".") = false →
      base.BucketURL.Host = bucket ++ "." ++ base.ServiceURL.Host) := by
  unfold buildBaseURL at h
  by_cases h1 : bucket = ""
  · rw [if_pos h1] at h; exact absurd h (by simp)
  rw [if_neg h1] at h
  by_cases h2 : endpoint = "" ∧ region = ""
  · rw [if_pos h2] at h; exact absurd h (by simp)
  rw [if_neg h2] at h
  split at h <;> (try dsimp only at h) <;> (try split at h) <;> (try split at h) <;>
    first
    | exact Except.noConfusion h
    | (injection h with h
       subst h
       constructor <;> intro hc <;> simp_all)

/-- Witness for C8 at an endpoint whose host is already bucket-qualified:
no double prefix appears. -/
theorem buildBaseURL_bucketHost_idempotent_witness :
    (goStartsWith "demo.cos.x.com" ("demo" ++ ".") = true →
      "demo.cos.x.com" = "demo.cos.x.com") ∧
    (goStartsWith "demo.cos.x.com" ("demo" ++ ".") = false →
      "demo.cos.x.com" = "demo" ++ "." ++ "demo.cos.x.com") :=
  buildBaseURL_bucketHost_idempotent "demo" "https://demo.cos.x.com" ""
    ⟨⟨"https", "demo.cos.x.com", "", "", ""⟩, ⟨"https", "demo.cos.x.com", "", "", ""⟩⟩ (by rfl)

lemma PutObjectWithReader_trace (r : Remote) (key : String) (opts : List PutOptFn) :
    (PutObjectWithReader r key opts).2 =
      [RemoteCall.put key (buildPutOptions (applyPutOpts opts))] := rfl

lemma applyPutOpts_append_one (opts : List PutOptFn) (f : PutOptFn) :
    applyPutOpts (opts ++ [f]) = f (applyPutOpts opts) := by
  simp [applyPutOpts, List.foldl_append]

lemma buildPutOptions_ContentLength (o : PutOption) :
    (buildPutOptions o).ContentLength = if o.ObjectSize > 0 then o.ObjectSize else 0 := rfl

/-- C2 counterexample: `PutObject` with an empty payload and an explicit
caller-supplied object size of 5 sends an unset (zero) content length to
the remote — the payload-length option it appends runs last and overwrote
the caller's size — while the claim demands that the supplied 5 be used. -/
theorem PutObject_callerSize_counterexample :
    (PutObject okRemote "k" [] [WithObjectSize 5]).2 = [RemoteCall.put "k" {}] ∧
    ({} : CosPutOptions).ContentLength = 0 ∧ (0 : Int) ≠ 5 :=
  ⟨rfl, rfl, by decide⟩

/-- C2 amended: the content length `PutObject` sends to the remote is
always the payload length — the size option it appends is applied after
the caller's options and overwrites any caller-supplied size (a
zero-length payload leaves the content length at its unset zero default,
which equals the payload length); `PutObjectWithReader` alone does use a
caller-supplied positive size. -/
theorem PutObject_contentLength_amended (r : Remote) (key : String)
    (content : List UInt8) (opts : List PutOptFn) (n : Int) (hn : 0 < n) :
    (∀ o, RemoteCall.put key o ∈ (PutObject r key content opts).2 →
      o.ContentLength = (content.length : Int)) ∧
    (∀ o, RemoteCall.put key o ∈ (PutObjectWithReader r key [WithObjectSize n]).2 →
      o.ContentLength = n) := by
  constructor
  · intro o ho
    simp only [PutObject, PutObjectWithReader_trace, List.mem_singleton,
      RemoteCall.put.injEq, true_and] at ho
    rw [ho, applyPutOpts_append_one, buildPutOptions_ContentLength]
    simp only [WithObjectSize]
    split <;> omega
  · intro o ho
    simp only [PutObjectWithReader_trace, List.mem_singleton,
      RemoteCall.put.injEq, true_and] at ho
    rw [ho, buildPutOptions_ContentLength]
    simp [applyPutOpts, WithObjectSize, hn]

/-- Witness for the amended C2: a one-byte payload yields content length 1
whatever the caller passed, and a reader put with supplied size 5 sends 5. -/
theorem PutObject_contentLength_amended_witness :
    (∀ o, RemoteCall.put "k" o ∈ (PutObject okRemote "k" [(7 : UInt8)] []).2 →
      o.ContentLength = (([(7 : UInt8)].length : Nat) : Int)) ∧
    (∀ o, RemoteCall.put "k" o ∈ (PutObjectWithReader okRemote "k" [WithObjectSize 5]).2 →
      o.ContentLength = 5) :=
  PutObject_contentLength_amended okRemote "k" [(7 : UInt8)] [] 5 (by decide)

/-- C5: `ListObjectsPaginated` rejects a nil input and a non-positive page
size before any remote call (the returned trace is empty), and on valid
input its first remote call is the list primitive at exactly
(prefix, marker = cursor, maxKeys = pageSize). -/
theorem ListObjectsPaginated_validation (r : Remote) (i : ListObjectsPaginatedInput)
    (opts : List GetOptFn) :
    ListObjectsPaginated r none opts = (.error (.err "input cannot be nil"), []) ∧
    (i.PageSize ≤ 0 →
      ListObjectsPaginated r (some i) opts =
        (.error (.err "page size must be positive"), [])) ∧
    (0 < i.PageSize → ∃ rest,
      (ListObjectsPaginated r (some i) opts).2 =
        RemoteCall.bucketGet i.Prefix i.Cursor i.PageSize :: rest) := by
  refine ⟨rfl, ?_, ?_⟩
  · intro h
    simp [ListObjectsPaginated, h]
  · intro h
    have hne : ¬ i.PageSize ≤ 0 := not_le.mpr h
    unfold ListObjectsPaginated
    dsimp only
    rw [if_neg hne]
    cases hbg : r.bucketGet i.Prefix i.Cursor i.PageSize with
    | error e => exact ⟨[], rfl⟩
    | ok result =>
      dsimp only
      split
      · exact ⟨_, rfl⟩
      · split
        · exact ⟨_, rfl⟩
        · exact ⟨_, rfl⟩

/-- Witness for C5 at page size 10. -/
theorem ListObjectsPaginated_validation_witness :
    ListObjectsPaginated okRemote none [] = (.error (.err "input cannot be nil"), []) ∧
    ((10 : Int) ≤ 0 →
      ListObjectsPaginated okRemote (some ⟨"p", 10, "c"⟩) [] =
        (.error (.err "page size must be positive"), [])) ∧
    (0 < (10 : Int) → ∃ rest,
      (ListObjectsPaginated okRemote (some ⟨"p", 10, "c"⟩) []).2 =
        RemoteCall.bucketGet "p" "c" 10 :: rest) :=
  ListObjectsPaginated_validation okRemote ⟨"p", 10, "c"⟩ []

/-- C6: a remote head failure reported as not-found maps to the exported
`ObjectNotFound` sentinel and no file info; any other remote head failure
is returned as a distinct generic error, never the sentinel. -/
theorem HeadObject_notFound_sentinel (r : Remote) (key : String)
    (opts : List GetOptFn) (e : RemoteHeadErr) (h : r.headObject key = .error e) :
    (e.notFound = true → (HeadObject r key opts).1 = .error .objectNotFound) ∧
    (e.notFound = false → (HeadObject r key opts).1 = .error (.err e.msg) ∧
      ClientErr.err e.msg ≠ .objectNotFound) := by
  unfold HeadObject
  rw [h]
  constructor
  · intro hn; simp [hn]
  · intro hn; simp [hn]

/-- Witness for C6: a not-found head error yields the sentinel. -/
theorem HeadObject_notFound_sentinel_witness :
    ((true : Bool) = true → (HeadObject notFoundRemote "k" []).1 = .error .objectNotFound) ∧
    ((true : Bool) = false → (HeadObject notFoundRemote "k" []).1 = .error (.err "missing") ∧
      ClientErr.err "missing" ≠ .objectNotFound) :=
  HeadObject_notFound_sentinel notFoundRemote "k" [] ⟨true, "missing"⟩ rfl

/-- C10: when the remote head succeeds, `HeadObject` (without enrichment
options) never fails: the size is the discarded-error integer parse of
Content-Length (0 when the header is not a syntactically valid integer)
and the last-modified is the discarded-error HTTP time parse (zero
timestamp when unparsable or absent). -/
theorem HeadObject_malformed_headers (r : Remote) (key : String) (resp : HeadResp)
    (h : r.headObject key = .ok resp) :
    (HeadObject r key [] =
      (.ok { Key := key
             LastModified := (httpParseTime resp.lastModified).getD timeZero
             ETag := goTrimQuotes resp.eTag
             Size := goParseInt64 resp.contentLength }, [.head key])) ∧
    (validInt64Syntax resp.contentLength = false → goParseInt64 resp.contentLength = 0) ∧
    (httpParseTime resp.lastModified = none →
      (httpParseTime resp.lastModified).getD timeZero = timeZero) := by
  refine ⟨?_, ?_, ?_⟩
  · unfold HeadObject
    rw [h]
    rfl
  · intro hv
    simp [goParseInt64, hv]
  · intro hm
    rw [hm]
    rfl

/-- Witness for C10: malformed Content-Length `xx` and Last-Modified `yy`
give size 0 and the zero timestamp, with no error. -/
theorem HeadObject_malformed_headers_witness :
    (HeadObject malformedHeadRemote "k" [] =
      (.ok { Key := "k"
             LastModified := (httpParseTime "yy").getD timeZero
             ETag := goTrimQuotes "e"
             Size := goParseInt64 "xx" }, [.head "k"])) ∧
    (validInt64Syntax "xx" = false → goParseInt64 "xx" = 0) ∧
    (httpParseTime "yy" = none → (httpParseTime "yy").getD timeZero = timeZero) :=
  HeadObject_malformed_headers malformedHeadRemote "k" ⟨"xx", "yy", "e"⟩ rfl

lemma enrichTagging_ok_keys (r : Remote) :
    ∀ files files' tr, enrichTagging r files = (.ok files', tr) →
      files'.map fileKeySize = files.map fileKeySize := by
  intro files
  induction files with
  | nil =>
    intro files' tr h
    simp only [enrichTagging, Prod.mk.injEq, Except.ok.injEq] at h
    rw [← h.1]
  | cons g gs ih =>
    intro files' tr h
    rw [enrichTagging] at h
    cases hg : r.getTagging g.Key with
    | error e => rw [hg] at h; exact absurd h (by simp)
    | ok ts =>
      rw [hg] at h
      rcases he : enrichTagging r gs with ⟨res, tr2⟩
      rw [he] at h
      cases res with
      | error e => exact absurd h (by simp)
      | ok gs' =>
        simp only [Prod.mk.injEq, Except.ok.injEq] at h
        rw [← h.1]
        simp only [List.map_cons, fileKeySize]
        exact congrArg (List.cons _) (congrArg (List.map fileKeySize) rfl ▸ ih gs' tr2 he)

lemma enrichTagging_error_of_mem (r : Remote) :
    ∀ files f, f ∈ files → (∃ e, r.getTagging f.Key = .error e) →
      ∃ e' tr, enrichTagging r files = (.error e', tr) := by
  intro files
  induction files with
  | nil => intro f hf _; exact absurd hf (List.not_mem_nil f)
  | cons g gs ih =>
    intro f hf he
    rw [enrichTagging]
    cases hg : r.getTagging g.Key with
    | error e => exact ⟨e, _, rfl⟩
    | ok ts =>
      rcases List.mem_cons.mp hf with hfg | hftail
      · rcases he with ⟨e, heE⟩
        rw [hfg] at heE
        rw [heE] at hg
        exact Except.noConfusion hg
      · rcases ih f hftail he with ⟨e', tr, hloop⟩
        rw [hloop]
        exact ⟨e', _, rfl⟩

lemma enrichTagging_ok_mem (r : Remote) :
    ∀ files files' tr, enrichTagging r files = (.ok files', tr) →
      ∀ f' ∈ files', ∃ f, f ∈ files ∧ ∃ ts, r.getTagging f.Key = .ok ts ∧
        f' = { f with Tagging := cosTagsToMap ts } := by
  intro files
  induction files with
  | nil =>
    intro files' tr h
    simp only [enrichTagging, Prod.mk.injEq, Except.ok.injEq] at h
    rw [← h.1]
    intro f' hf'
    exact absurd hf' (List.not_mem_nil f')
  | cons g gs ih =>
    intro files' tr h
    rw [enrichTagging] at h
    cases hg : r.getTagging g.Key with
    | error e => rw [hg] at h; exact absurd h (by simp)
    | ok ts =>
      rw [hg] at h
      rcases he : enrichTagging r gs with ⟨res, tr2⟩
      rw [he] at h
      cases res with
      | error e => exact absurd h (by simp)
      | ok gs' =>
        simp only [Prod.mk.injEq, Except.ok.injEq] at h
        rw [← h.1]
        intro f' hf'
        rcases List.mem_cons.mp hf' with h1 | h2
        · exact ⟨g, List.mem_cons_self g gs, ts, hg, h1⟩
        · rcases ih gs' tr2 he f' h2 with ⟨f, hfmem, ts', hts', heq⟩
          exact ⟨f, List.mem_cons_of_mem g hfmem, ts', hts', heq⟩

lemma assembleFileUrl_ok_keys (r : Remote) (exp : Int) :
    ∀ files files' tr, assembleFileUrl r exp files = (.ok files', tr) →
      files'.map fileKeySize = files.map fileKeySize := by
  intro files
  induction files with
  | nil =>
    intro files' tr h
    simp only [assembleFileUrl, Prod.mk.injEq, Except.ok.injEq] at h
    rw [← h.1]
  | cons g gs ih =>
    intro files' tr h
    rw [assembleFileUrl] at h
    cases hg : r.presignURL g.Key (if exp > 0 then exp else 7 * 24 * 60 * 60) with
    | error e => rw [hg] at h; exact absurd h (by simp)
    | ok u =>
      rw [hg] at h
      rcases he : assembleFileUrl r exp gs with ⟨res, tr2⟩
      rw [he] at h
      cases res with
      | error e => exact absurd h (by simp)
      | ok gs' =>
        simp only [Prod.mk.injEq, Except.ok.injEq] at h
        rw [← h.1]
        simp only [List.map_cons, fileKeySize]
        exact congrArg (List.cons _) (ih gs' tr2 he)

lemma assembleFileUrl_ok_mem (r : Remote) (exp : Int) :
    ∀ files files' tr, assembleFileUrl r exp files = (.ok files', tr) →
      ∀ f' ∈ files', ∃ f, f ∈ files ∧ ∃ u, f' = { f with URL := u } := by
  intro files
  induction files with
  | nil =>
    intro files' tr h
    simp only [assembleFileUrl, Prod.mk.injEq, Except.ok.injEq] at h
    rw [← h.1]
    intro f' hf'
    exact absurd hf' (List.not_mem_nil f')
  | cons g gs ih =>
    intro files' tr h
    rw [assembleFileUrl] at h
    cases hg : r.presignURL g.Key (if exp > 0 then exp else 7 * 24 * 60 * 60) with
    | error e => rw [hg] at h; exact absurd h (by simp)
    | ok u =>
      rw [hg] at h
      rcases he : assembleFileUrl r exp gs with ⟨res, tr2⟩
      rw [he] at h
      cases res with
      | error e => exact absurd h (by simp)
      | ok gs' =>
        simp only [Prod.mk.injEq, Except.ok.injEq] at h
        rw [← h.1]
        intro f' hf'
        rcases List.mem_cons.mp hf' with h1 | h2
        · exact ⟨g, List.mem_cons_self g gs, u, h1⟩
        · rcases ih gs' tr2 he f' h2 with ⟨f, hfmem, u', heq⟩
          exact ⟨f, List.mem_cons_of_mem g hfmem, u', heq⟩

lemma pageFiles_no_markers (result : BucketGetResult) :
    ∀ f ∈ pageFiles result, (f.Size == 0 && goEndsWith f.Key "/") = false := by
  intro f hf
  rcases List.mem_map.mp hf with ⟨o, ho, rfl⟩
  rcases List.mem_filter.mp ho with ⟨-, hpred⟩
  simp only [objToFileInfo]
  simp at hpred ⊢
  tauto

lemma ListObjectsPaginated_ok_inv (r : Remote) (i : ListObjectsPaginatedInput)
    (opts : List GetOptFn) (out : ListObjectsPaginatedOutput) (tr : List RemoteCall)
    (h : ListObjectsPaginated r (some i) opts = (.ok out, tr)) :
    ∃ page files₁ ttr utr,
      r.bucketGet i.Prefix i.Cursor i.PageSize = .ok page ∧
      (if (applyGetOpts opts).WithTagging = true then enrichTagging r (pageFiles page)
        else (.ok (pageFiles page), [])) = (.ok files₁, ttr) ∧
      (if (applyGetOpts opts).WithURL = true then
          assembleFileUrl r (applyGetOpts opts).Expire files₁
        else (.ok files₁, [])) = (.ok out.Files, utr) ∧
      out.Cursor = page.NextMarker ∧ out.IsTruncated = page.IsTruncated := by
  unfold ListObjectsPaginated at h
  dsimp only at h
  by_cases hps : i.PageSize ≤ 0
  · rw [if_pos hps] at h
    exact absurd h (by simp)
  rw [if_neg hps] at h
  cases hbg : r.bucketGet i.Prefix i.Cursor i.PageSize with
  | error e => rw [hbg] at h; exact absurd h (by simp)
  | ok page =>
    rw [hbg] at h
    dsimp only at h
    split at h
    · exact absurd h (by simp)
    · rename_i files₁ ttr ht
      split at h
      · exact absurd h (by simp)
      · rename_i files₂ utr hu
        simp only [Prod.mk.injEq, Except.ok.injEq] at h
        refine ⟨page, files₁, ttr, utr, rfl, ht, ?_, ?_, ?_⟩
        · rw [← h.1]; exact hu
        · rw [← h.1]
        · rw [← h.1]

lemma tagStage_ok_keys (r : Remote) (b : Bool) (files files' : List FileInfo)
    (tr : List RemoteCall)
    (h : (if b = true then enrichTagging r files else (.ok files, [])) = (.ok files', tr)) :
    files'.map fileKeySize = files.map fileKeySize := by
  cases b
  · rw [if_neg (by simp)] at h
    injection h with h1 h2
    injection h1 with h1
    rw [h1]
  · rw [if_pos rfl] at h
    exact enrichTagging_ok_keys r files files' tr h

lemma urlStage_ok_keys (r : Remote) (b : Bool) (exp : Int) (files files' : List FileInfo)
    (tr : List RemoteCall)
    (h : (if b = true then assembleFileUrl r exp files else (.ok files, [])) = (.ok files', tr)) :
    files'.map fileKeySize = files.map fileKeySize := by
  cases b
  · rw [if_neg (by simp)] at h
    injection h with h1 h2
    injection h1 with h1
    rw [h1]
  · rw [if_pos rfl] at h
    exact assembleFileUrl_ok_keys r exp files files' tr h

lemma no_markers_of_keys_eq (files' src : List FileInfo)
    (hmap : files'.map fileKeySize = src.map fileKeySize)
    (hsrc : ∀ g ∈ src, (g.Size == 0 && goEndsWith g.Key "/") = false) :
    ∀ f ∈ files', (f.Size == 0 && goEndsWith f.Key "/") = false := by
  intro f hf
  have hmem : fileKeySize f ∈ src.map fileKeySize := by
    rw [← hmap]
    exact List.mem_map_of_mem _ hf
  rcases List.mem_map.mp hmem with ⟨g, hg, hfg⟩
  have h1 : g.Key = f.Key := congrArg Prod.fst hfg
  have h2 : g.Size = f.Size := congrArg Prod.snd hfg
  rw [← h1, ← h2]
  exact hsrc g hg

lemma pageFiles_keys (result : BucketGetResult) :
    (pageFiles result).map fileKeySize =
      (result.Contents.filter fun o => !(o.Size == 0 && goEndsWith o.Key "/")).map
        (fun o => (o.Key, o.Size)) := by
  unfold pageFiles
  rw [List.map_map]
  rfl

lemma ListObjectsPaginated_ok_keys (r : Remote) (i : ListObjectsPaginatedInput)
    (opts : List GetOptFn) (out : ListObjectsPaginatedOutput) (tr : List RemoteCall)
    (page : BucketGetResult)
    (h : ListObjectsPaginated r (some i) opts = (.ok out, tr))
    (hpage : r.bucketGet i.Prefix i.Cursor i.PageSize = .ok page) :
    out.Files.map fileKeySize = (pageFiles page).map fileKeySize := by
  rcases ListObjectsPaginated_ok_inv r i opts out tr h with
    ⟨page', files₁, ttr, utr, hbg, ht, hu, -, -⟩
  have hpp : page = page' := by
    have := hpage.symm.trans hbg
    injection this
  subst hpp
  exact (urlStage_ok_keys r _ _ files₁ out.Files utr hu).trans
    (tagStage_ok_keys r _ (pageFiles page) files₁ ttr ht)

lemma ListObjectsPaginated_ok_no_markers (r : Remote) (i : ListObjectsPaginatedInput)
    (opts : List GetOptFn) (out : ListObjectsPaginatedOutput) (tr : List RemoteCall)
    (h : ListObjectsPaginated r (some i) opts = (.ok out, tr)) :
    ∀ f ∈ out.Files, (f.Size == 0 && goEndsWith f.Key "/") = false := by
  rcases ListObjectsPaginated_ok_inv r i opts out tr h with
    ⟨page, files₁, ttr, utr, hbg, ht, hu, -, -⟩
  have hk : out.Files.map fileKeySize = (pageFiles page).map fileKeySize :=
    (urlStage_ok_keys r _ _ files₁ out.Files utr hu).trans
      (tagStage_ok_keys r _ (pageFiles page) files₁ ttr ht)
  exact no_markers_of_keys_eq out.Files (pageFiles page) hk (pageFiles_no_markers page)

lemma listAllLoop_no_markers (r : Remote) (pre : String) (opts : List GetOptFn) :
    ∀ fuel acc cursor tr0 res tr,
      (∀ f ∈ acc, (f.Size == 0 && goEndsWith f.Key "/") = false) →
      listAllLoop r pre opts fuel acc cursor tr0 = some (.ok res, tr) →
      ∀ f ∈ res, (f.Size == 0 && goEndsWith f.Key "/") = false := by
  intro fuel
  induction fuel with
  | zero =>
    intro acc cursor tr0 res tr _ h
    exact absurd h (by simp [listAllLoop])
  | succ n ih =>
    intro acc cursor tr0 res tr hacc h
    rw [listAllLoop] at h
    split at h
    · exact absurd h (by simp)
    · rename_i output ltr hlp
      dsimp only at h
      have hout : ∀ f ∈ acc ++ output.Files, (f.Size == 0 && goEndsWith f.Key "/") = false := by
        intro f hf
        rcases List.mem_append.mp hf with h1 | h2
        · exact hacc f h1
        · exact ListObjectsPaginated_ok_no_markers r _ opts output ltr hlp f h2
      by_cases hcap : 10000 ≤ (acc ++ output.Files).length
      · rw [if_pos hcap] at h
        simp only [Option.some.injEq, Prod.mk.injEq, Except.ok.injEq] at h
        exact fun f hf => hout f (by rw [h.1]; exact hf)
      · rw [if_neg hcap] at h
        by_cases hend : (!output.IsTruncated || output.Cursor == "") = true
        · rw [if_pos hend] at h
          simp only [Option.some.injEq, Prod.mk.injEq, Except.ok.injEq] at h
          exact fun f hf => hout f (by rw [h.1]; exact hf)
        · rw [if_neg hend] at h
          exact ih _ _ _ res tr hout h

/-- C4: listing never surfaces a pseudo-directory marker (a zero-size key
ending in `/`): neither a page returned by `ListObjectsPaginated` nor the
drained result of `ListAllObjects` contains one, and the other entries of
the remote page are returned with their keys and sizes intact in their
original order. -/
theorem list_no_dir_markers (r : Remote) (i : ListObjectsPaginatedInput)
    (opts : List GetOptFn) (out : ListObjectsPaginatedOutput) (tr : List RemoteCall)
    (page : BucketGetResult) (pre : String) (fuel : Nat) (res : List FileInfo)
    (tr' : List RemoteCall)
    (hout : ListObjectsPaginated r (some i) opts = (.ok out, tr))
    (hpage : r.bucketGet i.Prefix i.Cursor i.PageSize = .ok page)
    (hall : ListAllObjects r pre opts fuel = some (.ok res, tr')) :
    (∀ f ∈ out.Files, (f.Size == 0 && goEndsWith f.Key "/") = false) ∧
    out.Files.map fileKeySize =
      (page.Contents.filter fun o => !(o.Size == 0 && goEndsWith o.Key "/")).map
        (fun o => (o.Key, o.Size)) ∧
    (∀ f ∈ res, (f.Size == 0 && goEndsWith f.Key "/") = false) := by
  refine ⟨ListObjectsPaginated_ok_no_markers r i opts out tr hout, ?_, ?_⟩
  · exact (ListObjectsPaginated_ok_keys r i opts out tr page hout hpage).trans
      (pageFiles_keys page)
  · exact listAllLoop_no_markers r pre opts fuel [] "" []
      res tr' (by intro f hf; exact absurd hf (List.not_mem_nil f)) hall

/-- Witness for C4 at a collaborator returning an empty page. -/
theorem list_no_dir_markers_witness :
    (∀ f ∈ (⟨[], "", false⟩ : ListObjectsPaginatedOutput).Files,
      (f.Size == 0 && goEndsWith f.Key "/") = false) ∧
    (⟨[], "", false⟩ : ListObjectsPaginatedOutput).Files.map fileKeySize =
      ((⟨[], "", false⟩ : BucketGetResult).Contents.filter
        fun o => !(o.Size == 0 && goEndsWith o.Key "/")).map (fun o => (o.Key, o.Size)) ∧
    (∀ f ∈ ([] : List FileInfo), (f.Size == 0 && goEndsWith f.Key "/") = false) :=
  list_no_dir_markers okRemote ⟨"p", 10, ""⟩ [] ⟨[], "", false⟩ [.bucketGet "p" "" 10]
    ⟨[], "", false⟩ "" 1 [] [.bucketGet "" "" 100] rfl rfl rfl

lemma urlStage_ok_mem (r : Remote) (b : Bool) (exp : Int) (files files' : List FileInfo)
    (tr : List RemoteCall)
    (h : (if b = true then assembleFileUrl r exp files else (.ok files, [])) = (.ok files', tr)) :
    ∀ f' ∈ files', ∃ f, f ∈ files ∧ f'.Key = f.Key ∧ f'.Tagging = f.Tagging := by
  cases b
  · rw [if_neg (by simp)] at h
    injection h with h1 h2
    injection h1 with h1
    rw [h1]
    exact fun f' hf' => ⟨f', hf', rfl, rfl⟩
  · rw [if_pos rfl] at h
    intro f' hf'
    rcases assembleFileUrl_ok_mem r exp files files' tr h f' hf' with ⟨f, hfmem, u, rfl⟩
    exact ⟨f, hfmem, rfl, rfl⟩

/-- C3: with tagging enrichment requested, `ListObjectsPaginated` is
all-or-nothing: if the tag fetch of any item of the filtered page fails,
the call returns an error and no output page; and whenever a page is
returned, every item in it carries the tag map the remote reports for its
key. -/
theorem ListObjectsPaginated_tagging_allOrNothing (r : Remote)
    (i : ListObjectsPaginatedInput) (opts : List GetOptFn) (page : BucketGetResult)
    (hT : (applyGetOpts opts).WithTagging = true)
    (hps : 0 < i.PageSize)
    (hpage : r.bucketGet i.Prefix i.Cursor i.PageSize = .ok page) :
    ((∃ f ∈ pageFiles page, ∃ e, r.getTagging f.Key = .error e) →
      ∃ msg tr, ListObjectsPaginated r (some i) opts = (.error (.err msg), tr)) ∧
    (∀ out tr, ListObjectsPaginated r (some i) opts = (.ok out, tr) →
      ∀ f ∈ out.Files, ∃ ts, r.getTagging f.Key = .ok ts ∧ f.Tagging = cosTagsToMap ts) := by
  constructor
  · rintro ⟨f, hf, he⟩
    rcases enrichTagging_error_of_mem r (pageFiles page) f hf he with ⟨e', ttr, herr⟩
    refine ⟨e', RemoteCall.bucketGet i.Prefix i.Cursor i.PageSize :: ttr, ?_⟩
    unfold ListObjectsPaginated
    dsimp only
    rw [if_neg (not_le.mpr hps), hpage]
    dsimp only
    rw [hT, if_pos rfl, herr]
  · intro out tr hout f hf
    rcases ListObjectsPaginated_ok_inv r i opts out tr hout with
      ⟨page', files₁, ttr, utr, hbg, ht, hu, -, -⟩
    rcases urlStage_ok_mem r _ _ files₁ out.Files utr hu f hf with ⟨f₁, hf₁, hkey, htag⟩
    rw [hT, if_pos rfl] at ht
    rcases enrichTagging_ok_mem r (pageFiles page') files₁ ttr ht f₁ hf₁ with
      ⟨g, hg, ts, hts, rfl⟩
    refine ⟨ts, ?_, ?_⟩
    · rw [hkey]; exact hts
    · rw [htag]

/-- Witness for C3 at a one-object page whose tag fetch succeeds. -/
theorem ListObjectsPaginated_tagging_allOrNothing_witness :
    ((∃ f ∈ pageFiles ⟨[⟨"a", 1, "", ""⟩], "", false⟩,
        ∃ e, taggedRemote.getTagging f.Key = .error e) →
      ∃ msg tr, ListObjectsPaginated taggedRemote (some ⟨"p", 10, ""⟩) [WithGetTagging] =
        (.error (.err msg), tr)) ∧
    (∀ out tr, ListObjectsPaginated taggedRemote (some ⟨"p", 10, ""⟩) [WithGetTagging] =
        (.ok out, tr) →
      ∀ f ∈ out.Files, ∃ ts, taggedRemote.getTagging f.Key = .ok ts ∧
        f.Tagging = cosTagsToMap ts) :=
  ListObjectsPaginated_tagging_allOrNothing taggedRemote ⟨"p", 10, ""⟩ [WithGetTagging]
    ⟨[⟨"a", 1, "", ""⟩], "", false⟩ rfl (by decide) rfl

lemma ListObjectsPaginated_noopts (r : Remote) (i : ListObjectsPaginatedInput)
    (hps : ¬ i.PageSize ≤ 0) (page : BucketGetResult)
    (hbg : r.bucketGet i.Prefix i.Cursor i.PageSize = .ok page) :
    ListObjectsPaginated r (some i) [] =
      (.ok ⟨pageFiles page, page.NextMarker, page.IsTruncated⟩,
       [.bucketGet i.Prefix i.Cursor i.PageSize]) := by
  unfold ListObjectsPaginated
  dsimp only
  rw [if_neg hps, hbg]
  rfl

lemma bigPage_files :
    pageFiles ⟨List.replicate 9999 bigObj, "next", true⟩ =
      List.replicate 9999 (objToFileInfo bigObj) := by
  unfold pageFiles
  simp only [List.filter_replicate]
  rw [if_pos (by decide), List.map_replicate]

lemma bigPage_listPage (c : String) :
    ListObjectsPaginated bigPageRemote (some ⟨"", 100, c⟩) [] =
      (.ok ⟨List.replicate 9999 (objToFileInfo bigObj), "next", true⟩,
       [.bucketGet "" c 100]) := by
  rw [ListObjectsPaginated_noopts bigPageRemote ⟨"", 100, c⟩
      ((by decide : ¬(100 : Int) ≤ 0))
      ⟨List.replicate 9999 bigObj, "next", true⟩ rfl]
  rw [bigPage_files]

/-- C1 counterexample: a remote reporting indefinite truncation with
pages of 9999 real objects drives `ListAllObjects` to a successful result
of 19998 items — well beyond the claimed 10000 bound — because the cap is
checked only after appending a whole page. -/
theorem ListAllObjects_over_cap_counterexample :
    ∃ res tr, ListAllObjects bigPageRemote "" [] 2 = some (.ok res, tr) ∧
      10000 < res.length := by
  refine ⟨List.replicate 19998 (objToFileInfo bigObj),
    [.bucketGet "" "" 100, .bucketGet "" "next" 100], ?_,
    by rw [List.length_replicate]; decide⟩
  unfold ListAllObjects
  rw [show (2 : Nat) = 1 + 1 from rfl, listAllLoop, bigPage_listPage]
  split
  · rename_i e t heq
    exact Except.noConfusion (congrArg Prod.fst heq)
  · rename_i output ltr heq
    simp only [Prod.mk.injEq, Except.ok.injEq] at heq
    rw [← heq.1, ← heq.2]
    dsimp only
    rw [if_neg (by rw [List.nil_append, List.length_replicate]; decide),
      if_neg (by decide)]
    rw [show (1 : Nat) = 0 + 1 from rfl, listAllLoop, bigPage_listPage]
    split
    · rename_i e t heq2
      exact Except.noConfusion (congrArg Prod.fst heq2)
    · rename_i output2 ltr2 heq2
      simp only [Prod.mk.injEq, Except.ok.injEq] at heq2
      rw [← heq2.1, ← heq2.2]
      dsimp only
      rw [if_pos (by
        simp only [List.nil_append, List.length_append, List.length_replicate]
        decide)]
      rw [List.nil_append, ← List.replicate_add]
      rfl

lemma listAllLoop_cap (r : Remote) (pre : String) (opts : List GetOptFn) (P : Nat)
    (hP : ∀ p m k page, r.bucketGet p m k = .ok page → page.Contents.length ≤ P) :
    ∀ fuel acc cursor tr0 res tr, acc.length ≤ 9999 →
      listAllLoop r pre opts fuel acc cursor tr0 = some (.ok res, tr) →
      res.length ≤ 9999 + P := by
  intro fuel
  induction fuel with
  | zero =>
    intro _ _ _ _ _ _ h
    exact absurd h (by simp [listAllLoop])
  | succ n ih =>
    intro acc cursor tr0 res tr hacc h
    rw [listAllLoop] at h
    split at h
    · exact absurd h (by simp)
    · rename_i output ltr hlp
      dsimp only at h
      have hlen : output.Files.length ≤ P := by
        rcases ListObjectsPaginated_ok_inv r _ opts output ltr hlp with
          ⟨page, files₁, ttr, utr, hbg, ht, hu, -, -⟩
        have hk := (urlStage_ok_keys r _ _ files₁ output.Files utr hu).trans
          (tagStage_ok_keys r _ (pageFiles page) files₁ ttr ht)
        have h1 : output.Files.length = (pageFiles page).length := by
          have := congrArg List.length hk
          simpa using this
        rw [h1]
        calc (pageFiles page).length ≤ page.Contents.length := by
              unfold pageFiles
              rw [List.length_map]
              exact List.length_filter_le _ _
          _ ≤ P := hP _ _ _ page hbg
      by_cases hcap : 10000 ≤ (acc ++ output.Files).length
      · rw [if_pos hcap] at h
        simp only [Option.some.injEq, Prod.mk.injEq, Except.ok.injEq] at h
        rw [← h.1, List.length_append]
        omega
      · rw [if_neg hcap] at h
        by_cases hend : (!output.IsTruncated || output.Cursor == "") = true
        · rw [if_pos hend] at h
          simp only [Option.some.injEq, Prod.mk.injEq, Except.ok.injEq] at h
          rw [← h.1, List.length_append]
          omega
        · rw [if_neg hend] at h
          refine ih _ _ _ res tr ?_ h
          rw [List.length_append]
          rw [List.length_append] at hcap
          omega

/-- C1 amended: once the accumulated count reaches 10000,
`ListAllObjects` stops and returns the accumulated items as a successful
partial result — but the cap is checked only after a whole page has been
appended, so the bound is 9999 plus one page: when every remote page
holds at most P objects, at most 9999 + P items are returned, and the
result can exceed 10000 itself. -/
theorem ListAllObjects_cap_amended (r : Remote) (pre : String) (opts : List GetOptFn)
    (P fuel : Nat) (res : List FileInfo) (tr : List RemoteCall)
    (hP : ∀ p m k page, r.bucketGet p m k = .ok page → page.Contents.length ≤ P)
    (h : ListAllObjects r pre opts fuel = some (.ok res, tr)) :
    res.length ≤ 9999 + P :=
  listAllLoop_cap r pre opts P hP fuel [] "" [] res tr (by simp) h

/-- Witness for the amended C1 at a collaborator with empty single pages. -/
theorem ListAllObjects_cap_amended_witness :
    ([] : List FileInfo).length ≤ 9999 + 0 :=
  ListAllObjects_cap_amended okRemote "" [] 0 1 [] [.bucketGet "" "" 100]
    (fun p m k page hpage => by
      injection hpage with hpage
      rw [← hpage]
      exact Nat.le_refl 0)
    rfl
